import Mathlib

/-!
Verification development for the ipmitool server-power sampler
(`src/ipmi.py`, canonical engine variant).  The Python code is shallowly
embedded: pure helpers become Lean functions over `List Char` / `String`,
the streaming `sdr elist` loop becomes a step function over an explicit
schedule of pipe events with a rational-valued monotonic clock (a `quiet`
poll advances the clock by the 0.02 s sleep), and floats are modelled as
exact rationals.
-/

namespace IpmiPower

abbrev Chars := List Char

/-- ASCII whitespace, as recognised by Python `str.strip` / `\s`. -/
def isPySpace (c : Char) : Bool :=
  c = ' ' || c = '\t' || c = '\n' || c = '\r' || c = '\x0b' || c = '\x0c'

/-- Word character for the `\b` boundary of Python regexes (ASCII part). -/
def isWordChar (c : Char) : Bool := c.isAlphanum || c = '_'

def lowerChars (l : Chars) : Chars := l.map Char.toLower

/-- Python `str.strip()`. -/
def pyStrip (l : Chars) : Chars :=
  ((l.dropWhile isPySpace).reverse.dropWhile isPySpace).reverse

/-- Python `str.rstrip("\r")` applied to a decoded output line. -/
def rstripCR (l : Chars) : Chars :=
  (l.reverse.dropWhile (fun c => c = '\r')).reverse

/-- `value_field.split()[0]` (first whitespace-delimited token, `""` if none). -/
def firstToken (l : Chars) : Chars :=
  (l.dropWhile isPySpace).takeWhile (fun c => !isPySpace c)

/-- Substring containment (both arguments expected pre-lowercased). -/
def containsSub (sub l : Chars) : Bool :=
  l.tails.any (fun t => sub.isPrefixOf t)

/-- Match a literal character sequence at the head, returning the rest. -/
def matchLit : Chars → Chars → Option Chars
  | [], l => some l
  | _ :: _, [] => none
  | c :: cs, x :: xs => if x = c then matchLit cs xs else none

/-- `\b` just after a word: next char (if any) is a non-word char. -/
def boundaryAfter : Chars → Bool
  | [] => true
  | c :: _ => !isWordChar c

/-- `\b` just before a word char at the search position. -/
def wordStart : Option Char → Bool
  | none => true
  | some c => !isWordChar c

/-- `Power\b` (lowercased input). -/
def powTail (l : Chars) : Bool :=
  match matchLit "power".toList l with
  | some r => boundaryAfter r
  | none => false

/-- Match `\bTOTAL[_\s]?POWER\b` (case-insensitive) at this position. -/
def totalPowerAt (prev : Option Char) (l : Chars) : Bool :=
  wordStart prev &&
    (match matchLit "total".toList l with
     | some r =>
       (match r with
        | c :: r2 => (if c = '_' || isPySpace c then powTail r2 else false) || powTail r
        | [] => powTail r)
     | none => false)

/-- `\s+Power\b` (lowercased input), with backtracking over the run of spaces. -/
def wsPowTail : Chars → Bool
  | [] => false
  | c :: rest => isPySpace c && (wsPowTail rest || powTail rest)

/-- Match `\bW\s+Power\b` at this position, for a literal word `w`. -/
def wordWsPowerAt (w : Chars) (prev : Option Char) (l : Chars) : Bool :=
  wordStart prev &&
    (match matchLit w l with
     | some r => wsPowTail r
     | none => false)

/-- `re.search`: try the position matcher at every start position. -/
def searchFrom (p : Option Char → Chars → Bool) : Option Char → Chars → Bool
  | prev, [] => p prev []
  | prev, c :: rest => p prev (c :: rest) || searchFrom p (some c) rest

/-- The `HIGH_PREF` pattern list of `src/ipmi.py` (searched case-insensitively;
the first two entries of the Python list are case-variants of the same
pattern, so one disjunct covers them). -/
def highPref (n : Chars) : Bool :=
  let l := lowerChars n
  searchFrom totalPowerAt none l ||
  searchFrom (wordWsPowerAt "total".toList) none l ||
  searchFrom (wordWsPowerAt "system".toList) none l ||
  searchFrom (wordWsPowerAt "chassis".toList) none l ||
  searchFrom (wordWsPowerAt "platform".toList) none l ||
  searchFrom (wordWsPowerAt "node".toList) none l

/-- `PLAIN_POWER = re.compile(r"^\s*Power\s*$", re.IGNORECASE)`, via `.match`. -/
def plainPower (n : Chars) : Bool :=
  match matchLit "power".toList ((lowerChars n).dropWhile isPySpace) with
  | some r => r.all isPySpace
  | none => false

/-- `PSU\d` at this position (lowercased input). -/
def psuDigitAt (l : Chars) : Bool :=
  match matchLit "psu".toList l with
  | some (c :: _) => c.isDigit
  | _ => false

/-- `Power\d+` at this position (lowercased input). -/
def powerDigitAt (l : Chars) : Bool :=
  match matchLit "power".toList l with
  | some (c :: _) => c.isDigit
  | _ => false

/-- `EXCLUDE_HARD`: component / pin power telemetry names, searched
case-insensitively with no word boundaries. -/
def excludeHard (n : Chars) : Bool :=
  let l := lowerChars n
  containsSub "cpu".toList l || containsSub "mem".toList l ||
  containsSub "gpu".toList l || containsSub "fan".toList l ||
  containsSub "hdd".toList l || containsSub "nvme".toList l ||
  containsSub "raid".toList l || l.tails.any psuDigitAt ||
  containsSub "_pin".toList l || containsSub "_pout".toList l ||
  containsSub "iin".toList l || containsSub "iout".toList l ||
  containsSub "vin".toList l || containsSub "vout".toList l ||
  l.tails.any powerDigitAt

/-- `name_score` of `src/ipmi.py` lines 47-60. -/
def name_score (name : String) : Int :=
  let n := pyStrip name.toList
  if n = [] then 0
  else if highPref n then 100
  else if plainPower n then 90
  else if excludeHard n then 20
  else if containsSub "power".toList (lowerChars n) then 40
  else 0

/-! ## Numeric extraction (`NUM_W_PAT`, `NUM_PAT`) -/

def digitsVal (l : Chars) : ℕ :=
  l.foldl (fun a c => a * 10 + (c.toNat - Char.toNat '0')) 0

/-- Exact rational value of a decimal literal matched by the number patterns
(`float(...)` is modelled exactly; the values the claims mention are
float-representable). -/
def decToRat (l : Chars) : ℚ :=
  let sg : ℚ := match l with
    | '-' :: _ => -1
    | _ => 1
  let l1 : Chars := match l with
    | '-' :: r => r
    | '+' :: r => r
    | _ => l
  let ds := l1.takeWhile Char.isDigit
  let l2 := l1.dropWhile Char.isDigit
  let fr : ℚ := match l2 with
    | '.' :: r => (digitsVal r : ℚ) / ((10 : ℚ) ^ r.length)
    | _ => 0
  sg * ((digitsVal ds : ℚ) + fr)

/-- Match `(?:W|Watts?)\b` (case-insensitive) at the head; returns the number
of characters consumed.  Mirrors Python's alternative order and the
backtracking of the optional `s`. -/
def matchUnit : Chars → Option ℕ
  | [] => none
  | c :: rest =>
    if c.toLower = 'w' then
      if boundaryAfter rest then some 1
      else
        match rest with
        | a :: t1 =>
          if a.toLower = 'a' then
            match t1 with
            | b :: t2 =>
              if b.toLower = 't' then
                match t2 with
                | d :: t3 =>
                  if d.toLower = 't' then
                    match t3 with
                    | s :: t4 =>
                      if s.toLower = 's' && boundaryAfter t4 then some 5
                      else if boundaryAfter t3 then some 4
                      else none
                    | [] => some 4
                  else none
                | [] => none
              else none
            | [] => none
          else none
        | [] => none
    else none

def spanDigits (l : Chars) : Chars × Chars :=
  (l.takeWhile Char.isDigit, l.dropWhile Char.isDigit)

/-- After a number of length `numLen`, consume `\s*` then the unit token;
returns the total match length. -/
def tryUnitFrom (numLen : ℕ) (rest : Chars) : Option ℕ :=
  let sp := rest.takeWhile isPySpace
  let r2 := rest.dropWhile isPySpace
  match matchUnit r2 with
  | some k => some (numLen + sp.length + k)
  | none => none

/-- Match `([-+]?\d+(?:\.\d+)?)\s*(?:W|Watts?)\b` at this start position;
returns `(group-1 length, group-0 length)`.  The optional fractional part
is tried greedily first, as the regex engine does. -/
def matchNumUnitAt (l : Chars) : Option (ℕ × ℕ) :=
  let sgLen : ℕ := match l with
    | '-' :: _ => 1
    | '+' :: _ => 1
    | _ => 0
  let l1 := l.drop sgLen
  let (ds, l2) := spanDigits l1
  if ds.isEmpty then none
  else
    let intLen := sgLen + ds.length
    let withFrac : Option (ℕ × Chars) :=
      match l2 with
      | '.' :: r =>
        let (fs, r2) := spanDigits r
        if fs.isEmpty then none else some (intLen + 1 + fs.length, r2)
      | _ => none
    match withFrac with
    | some (nl, rest) =>
      (match tryUnitFrom nl rest with
       | some tot => some (nl, tot)
       | none =>
         match tryUnitFrom intLen l2 with
         | some tot => some (intLen, tot)
         | none => none)
    | none =>
      match tryUnitFrom intLen l2 with
      | some tot => some (intLen, tot)
      | none => none

/-- `NUM_W_PAT.search`: leftmost match; returns `(group(1), group(0))`. -/
def searchNumUnit : Chars → Option (Chars × Chars)
  | [] => none
  | c :: rest =>
    match matchNumUnitAt (c :: rest) with
    | some (g1, g0) => some ((c :: rest).take g1, (c :: rest).take g0)
    | none => searchNumUnit rest

/-- `NUM_PAT.match(vf)`: the whole token is `[-+]?\d+(?:\.\d+)?`. -/
def isBareNum (l : Chars) : Bool :=
  let l1 : Chars := match l with
    | '-' :: r => r
    | '+' :: r => r
    | _ => l
  let (ds, l2) := spanDigits l1
  !ds.isEmpty &&
    (match l2 with
     | [] => true
     | '.' :: r =>
       let (fs, r2) := spanDigits r
       !fs.isEmpty && r2.isEmpty
     | _ => false)

/-- Wattage extraction from the value field (`src/ipmi.py` lines 182-193,
including the `value_str` recorded for the best match): first a
unit-qualified number anywhere in the field, else the field's first
whitespace-delimited token when it is a bare number. -/
def extractWatts (vf : Chars) : Option (ℚ × Chars) :=
  match searchNumUnit vf with
  | some (g1, g0) => some (decToRat g1, g0)
  | none =>
    let ft := firstToken vf
    if isBareNum ft then some (decToRat ft, ft) else none

/-! ## Line parsing and the streaming scan -/

/-- Python `line.split("|")` (keeps empty fields). -/
def splitPipe : Chars → List Chars
  | [] => [[]]
  | c :: rest =>
    if c = '|' then [] :: splitPipe rest
    else
      match splitPipe rest with
      | h :: t => (c :: h) :: t
      | [] => [[c]]

/-- `parts[4] if len(parts) > 4 else (parts[2] if len(parts) > 2 else "")`. -/
def valueFieldOf (parts : List Chars) : Chars :=
  if parts.length > 4 then parts.getD 4 []
  else if parts.length > 2 then parts.getD 2 []
  else []

/-- `re.sub(r"\s+", " ", s)` on an already-stripped string: collapse each
whitespace run to one space.  The flag records whether the previous kept
character was a space. -/
def collapseWs : Bool → Chars → Chars
  | _, [] => []
  | prevSp, c :: rest =>
    if isPySpace c then
      if prevSp then collapseWs true rest else ' ' :: collapseWs true rest
    else c :: collapseWs false rest

/-- `compress_one_line` of `src/ipmi.py` lines 102-105. -/
def compress_one_line (s : Chars) (limit : ℕ) : Chars :=
  (collapseWs false (pyStrip s)).take limit

/-- Parse one (already `\r`-stripped) output line into a candidate
`(name, watts, value_str)`; `none` when the line has no `|` or yields no
number (`src/ipmi.py` lines 177-193). -/
def lineCandidate (line : Chars) : Option (String × ℚ × String) :=
  if line.contains '|' then
    let parts := (splitPipe line).map pyStrip
    let nm := parts.headD []
    match extractWatts (valueFieldOf parts) with
    | some (w, vs) => some (String.mk nm, w, String.mk vs)
    | none => none
  else none

/-- The running best candidate (`best` dict, `src/ipmi.py` line 136). -/
structure Best where
  score : Int
  watts : Option ℚ
  name : String
  value_str : String
  line : String
deriving DecidableEq

def initBest : Best := ⟨-1, none, "", "", ""⟩

/-- Outcome of feeding lines to the scanner: either keep scanning with an
updated best, or a confident hit (score ≥ 90) that stops the scan. -/
inductive ScanOut where
  | more (best : Best)
  | hit (w : ℚ) (nm : String) (best : Best)
deriving DecidableEq

/-- Process one raw output line (`src/ipmi.py` lines 174-214 inner loop):
decode/`rstrip("\r")`, parse, drop scores ≤ 20, update the best candidate,
and stop on score ≥ 90. -/
def scanLine (best : Best) (raw : String) : ScanOut :=
  let line := rstripCR raw.toList
  match lineCandidate line with
  | none => .more best
  | some (nm, w, vs) =>
    let sc := name_score nm
    if sc ≤ 20 then .more best
    else
      let best2 :=
        if sc > best.score then
          ⟨sc, some w, nm, vs, String.mk (compress_one_line line 800)⟩
        else best
      if sc ≥ 90 then .hit w nm best2 else .more best2

def scanChunk (best : Best) : List String → ScanOut
  | [] => .more best
  | l :: ls =>
    match scanLine best l with
    | .more b => scanChunk b ls
    | .hit w nm b => .hit w nm b

def hitWatts : ScanOut → Option ℚ
  | .more _ => none
  | .hit w _ _ => some w

def hitName : ScanOut → Option String
  | .more _ => none
  | .hit _ nm _ => some nm

/-! ## Deadline-bounded process runner (`sdr_elist_stream`)

The streaming loop of `src/ipmi.py` lines 140-244 is modelled as a step
function over a schedule of pipe events.  Only the 0.02 s poll sleep
advances the monotonic clock; reading and scanning are instantaneous in
the model.  The process is launched at clock 0, so the deadline is the
configured per-call timeout itself. -/

/-- Per-host terminal status strings of the runner / retry layer. -/
inductive Status where
  | ok
  | timeout
  | ipmitool_error (rc : Option Int)
  | no_power_output_sdr
  | unknown
  | exception (detail : String)
deriving DecidableEq

/-- What one iteration of the poll loop observes on the pipe:
`data` — bytes available, delivering complete output lines;
`eof` — read returns no bytes (stream closed), with the subsequent
`proc.poll()` result; `quiet` — no bytes and still running (0.02 s sleep);
`exited` — no bytes and `proc.poll()` returns an exit code. -/
inductive Ev where
  | data (lines : List String)
  | eof (rcAfter : Option Int)
  | quiet
  | exited (rc : Int)
deriving DecidableEq

/-- The runner's return value: watts, status, and the fields of the log
dict that the claims mention, plus whether the subordinate process is
still running when the runner returns. -/
structure RunRet where
  watts : Option ℚ
  status : Status
  procAlive : Bool
  retTime : ℚ
  matchName : String
  matchValueStr : String
  matchLine : String
  rcOut : Option Int
  stderrOut : String
deriving DecidableEq

/-- `time.sleep(0.02)` of the poll loop. -/
def pollInterval : ℚ := 1 / 50

/-- The timeout return (`src/ipmi.py` lines 142-159): terminate+kill, then
report the best candidate seen so far and the compressed stderr text. -/
def timeoutRet (clock : ℚ) (best : Best) (errText : String) : RunRet :=
  ⟨none, .timeout, false, clock, best.name, best.value_str, best.line, none,
   String.mk (compress_one_line errText.toList 800)⟩

/-- The confident-match return (`src/ipmi.py` lines 206-214): kill and
report `ok` with the current line's watts and name. -/
def hitRet (clock : ℚ) (w : ℚ) (nm : String) (b : Best) : RunRet :=
  ⟨some w, .ok, false, clock, nm, b.value_str, b.line, none, ""⟩

/-- The natural-exit return (`src/ipmi.py` lines 220-244); `rc` is what
`proc.poll()` reported after the read loop ended. -/
def exitRet (clock : ℚ) (best : Best) (rc : Option Int) (errText : String) : RunRet :=
  if rc = some 0 then
    match best.watts with
    | some w => ⟨some w, .ok, false, clock, best.name, best.value_str, best.line, rc, ""⟩
    | none => ⟨none, .no_power_output_sdr, false, clock, "", "", "", rc, ""⟩
  else
    ⟨none, .ipmitool_error rc, rc.isNone, clock, "", "", "", rc,
     String.mk (compress_one_line errText.toList 800)⟩

/-- The poll loop.  Each iteration first checks the deadline
(`time.monotonic() > deadline`), then consumes one pipe event.  `none`
means the schedule ran out while the loop was still going. -/
def runLoop (deadline : ℚ) (errText : String) : List Ev → ℚ → Best → Option RunRet
  | [], clock, best =>
    if deadline < clock then some (timeoutRet clock best errText) else none
  | ev :: rest, clock, best =>
    if deadline < clock then some (timeoutRet clock best errText)
    else
      match ev with
      | .data ls =>
        match scanChunk best ls with
        | .more b => runLoop deadline errText rest clock b
        | .hit w nm b => some (hitRet clock w nm b)
      | .eof rc => some (exitRet clock best rc errText)
      | .quiet => runLoop deadline errText rest (clock + pollInterval) best
      | .exited rc => some (exitRet clock best (some rc) errText)

/-- `sdr_elist_stream` after a successful spawn: deadline is
`now + total_timeout` with launch at clock 0. -/
def sdr_elist_stream (total_timeout : ℚ) (errText : String) (evs : List Ev) :
    Option RunRet :=
  runLoop total_timeout errText evs 0 initBest

/-- The scanner state after the consumed part of a schedule, ignoring the
clock: the fold of `scanChunk` over the data events (total, for use in
statements about runs that never hit / exit early). -/
def bestFold (best : Best) : List Ev → Best
  | [] => best
  | .data ls :: rest =>
    (match scanChunk best ls with
     | .more b => bestFold b rest
     | .hit _ _ b => bestFold b rest)
  | .quiet :: rest => bestFold best rest
  | .eof _ :: rest => bestFold best rest
  | .exited _ :: rest => bestFold best rest

/-- Total clock advance contributed by the sleeps of a schedule. -/
def quietTime : List Ev → ℚ
  | [] => 0
  | .quiet :: rest => pollInterval + quietTime rest
  | .data _ :: rest => quietTime rest
  | .eof _ :: rest => quietTime rest
  | .exited _ :: rest => quietTime rest

/-! ## Retry controller (`query_one`) and detail rows -/

/-- One runner invocation as seen by the retry loop: the watts and status
it returned (standing for the `(watts, status, log)` triple; the log is
the pair itself in this model). -/
structure AttemptOut where
  watts : Option ℚ
  status : Status
deriving DecidableEq

structure QueryRes where
  finalWatts : Option ℚ
  finalStatus : Status
  logs : List (ℕ × AttemptOut)
deriving DecidableEq

/-- The retry loop of `query_one` (`src/ipmi.py` lines 264-283): attempt
`a`, `rem` attempts remaining, accumulated logs (reversed), current
`final_status`. -/
def queryGo (f : ℕ → AttemptOut) : ℕ → ℕ → List (ℕ × AttemptOut) → Status → QueryRes
  | _, 0, logs, st => ⟨none, st, logs.reverse⟩
  | a, rem + 1, logs, st =>
    let r := f a
    let logs2 := (a, r) :: logs
    if r.status = .ok ∧ r.watts.isSome then ⟨r.watts, .ok, logs2.reverse⟩
    else queryGo f (a + 1) rem logs2 r.status
  termination_by _ rem _ _ => rem

/-- `attempts = max(1, args.retries + 1)`. -/
def maxAttempts (retries : Int) : ℕ := (max 1 (retries + 1)).toNat

def query_one (retries : Int) (f : ℕ → AttemptOut) : QueryRes :=
  queryGo f 1 (maxAttempts retries) [] .unknown

structure HostRec where
  room : String
  rack : String
  name : String
  ip : String
deriving DecidableEq

/-- The fields of a detail row that the claims are about (`src/ipmi.py`
lines 300-316): `watts` is `round(final_watts, 1)` when numeric and blank
(`none`) otherwise; `attemptsField` is the `"attempts"` cell. -/
structure DetailRow where
  room : String
  rack : String
  name : String
  watts : Option ℚ
  status : Status
  attemptsField : ℕ
  logs : List (ℕ × AttemptOut)
deriving DecidableEq

/-- Python `round(x, 1)` on exact rationals: round half to even. -/
def roundHalfEven (q : ℚ) : ℤ :=
  let n := ⌊q⌋
  let r := q - n
  if r < 1 / 2 then n
  else if 1 / 2 < r then n + 1
  else if 2 ∣ n then n else n + 1

def round1 (q : ℚ) : ℚ := (roundHalfEven (q * 10) : ℚ) / 10

def detailRowOf (h : HostRec) (retries : Int) (res : QueryRes) : DetailRow :=
  ⟨h.room, h.rack, h.name, res.finalWatts.map round1, res.finalStatus,
   maxAttempts retries, res.logs⟩

/-- The substitute row the orchestrator builds when a task raises
(`src/ipmi.py` lines 418-430). -/
def exceptionRow (h : HostRec) (e : String) : DetailRow :=
  ⟨h.room, h.rack, h.name, none, .exception e, 0, []⟩

/-- `fut.result()` with its `try/except` (`src/ipmi.py` lines 414-430):
a raised exception is converted, a normal result is kept. -/
def taskRow (retries : Int) (h : HostRec) (r : Except String QueryRes) : DetailRow :=
  match r with
  | .ok res => detailRowOf h retries res
  | .error e => exceptionRow h e

/-- The orchestrator produces exactly one detail row per inventory host;
`task` is the per-host retry-controller computation (or the exception it
raises). -/
def mainRows (retries : Int) (hosts : List HostRec)
    (task : HostRec → Except String QueryRes) : List DetailRow :=
  hosts.map (fun h => taskRow retries h (task h))

/-! ## Room → rack summary (`build_room_rack_summary`) -/

structure SumRow where
  room : String
  rack : String
  label : String
  total : Option ℚ
deriving DecidableEq

/-- `OrderedDict.fromkeys`: first-occurrence order, duplicates dropped. -/
def uniqFirst (seen : List String) : List String → List String
  | [] => []
  | x :: xs => if x ∈ seen then uniqFirst seen xs else x :: uniqFirst (x :: seen) xs

/-- Sum of the numeric `watts` cells of the rows selected by `p`
(`pd.to_numeric(...).notna()` keeps exactly the rows whose watts cell is
a number). -/
def sumWattsIf (p : DetailRow → Bool) (rows : List DetailRow) : ℚ :=
  (rows.filterMap (fun r => if p r then r.watts else none)).sum

/-- The claim-side total: the exact sum of watts over the rows with
status `ok` selected by `p`. -/
def okStatusWattsSum (p : DetailRow → Bool) (rows : List DetailRow) : ℚ :=
  (rows.filterMap (fun r => if p r ∧ r.status = Status.ok then r.watts else none)).sum

def rackSum (rows : List DetailRow) (rm rk : String) : ℚ :=
  sumWattsIf (fun r => r.room = rm && r.rack = rk) rows

def roomSum (rows : List DetailRow) (rm : String) : ℚ :=
  sumWattsIf (fun r => r.room = rm) rows

/-- `round(float(w), 1) if w else 0.0`. -/
def presentTotal (w : ℚ) : ℚ := if w ≠ 0 then round1 w else 0

/-- `build_room_rack_summary` (`src/ipmi.py` lines 322-364): per room a
header row, one row per rack, a subtotal row, and a blank separator. -/
def build_room_rack_summary (rows : List DetailRow) : List SumRow :=
  let rooms := uniqFirst [] (rows.map (fun r => r.room))
  rooms.flatMap (fun rm =>
    let racks := uniqFirst [] ((rows.filter (fun r => r.room = rm)).map (fun r => r.rack))
    (⟨rm, "", "", none⟩ : SumRow) ::
      racks.map (fun rk => (⟨rm, rk, rk, some (presentTotal (rackSum rows rm rk))⟩ : SumRow))
      ++ [⟨rm, "", "小计（" ++ rm ++ "）", some (presentTotal (roomSum rows rm))⟩,
          ⟨"", "", "", none⟩])

/-! ## Derived notions used to state the claims -/

/-- Name matches one of the fixed aggregate-power patterns (after the
`strip` the scorer performs). -/
def aggNamePat (name : String) : Bool := highPref (pyStrip name.toList)

/-- Name is exactly the bare word "Power" up to case and whitespace. -/
def plainPowerName (name : String) : Bool := plainPower (pyStrip name.toList)

/-- Name matches the component/pin exclusion pattern. -/
def exclNamePat (name : String) : Bool := excludeHard (pyStrip name.toList)

/-- Name contains the substring "power" (case-insensitive). -/
def hasPowerSub (name : String) : Bool :=
  containsSub "power".toList (lowerChars (pyStrip name.toList))

/-- The `(final_watts, final_status)` the retry loop ends with, separated
from the log accumulation for analysis. -/
def queryOut (f : ℕ → AttemptOut) : ℕ → ℕ → Status → Option ℚ × Status
  | _, 0, st => (none, st)
  | a, rem + 1, _ =>
    if (f a).status = .ok ∧ (f a).watts.isSome then ((f a).watts, .ok)
    else queryOut f (a + 1) rem (f a).status

/-- The attempt log entries the retry loop appends, in order. -/
def attemptsTrace (f : ℕ → AttemptOut) : ℕ → ℕ → List (ℕ × AttemptOut)
  | _, 0 => []
  | a, rem + 1 =>
    if (f a).status = .ok ∧ (f a).watts.isSome then [(a, f a)]
    else (a, f a) :: attemptsTrace f (a + 1) rem

/-! ## Shared lemmas about the scanner -/

theorem scanChunk_append (xs ys : List String) :
    ∀ b : Best, scanChunk b (xs ++ ys) =
      (match scanChunk b xs with
       | .more b2 => scanChunk b2 ys
       | .hit w nm b2 => .hit w nm b2) := by
  induction xs with
  | nil => intro b; rfl
  | cons l ls ih =>
    intro b
    simp only [List.cons_append, scanChunk]
    cases h : scanLine b l with
    | more b2 => exact ih b2
    | hit w nm b2 => rfl

/-- A line whose candidate scores ≥ 90 makes the scanner stop with that
candidate's watts and name. -/
theorem scanLine_hit (b : Best) (line nm : String) (w : ℚ) (vs : String)
    (hc : lineCandidate (rstripCR line.toList) = some (nm, w, vs))
    (hs : 90 ≤ name_score nm) :
    ∃ b2, scanLine b line = .hit w nm b2 := by
  have h20 : ¬ name_score nm ≤ 20 := by omega
  simp only [scanLine, hc, h20, if_false, ge_iff_le, hs, if_true]
  exact ⟨_, rfl⟩

/-- A line with no candidate, or whose candidate scores ≤ 20, leaves the
scanner state untouched. -/
theorem scanLine_skip (b : Best) (line : String)
    (h : ∀ nm w vs, lineCandidate (rstripCR line.toList) = some (nm, w, vs) →
      name_score nm ≤ 20) :
    scanLine b line = .more b := by
  cases hc : lineCandidate (rstripCR line.toList) with
  | none => simp only [scanLine, hc]
  | some t =>
    obtain ⟨nm, w, vs⟩ := t
    have h20 := h nm w vs hc
    simp only [scanLine, hc, h20, if_true]

/-- The first confident candidate in the stream decides the scan,
independently of everything after it. -/
theorem scanChunk_first_hit (b b1 : Best) (ls1 ls2 : List String) (line nm : String)
    (w : ℚ) (vs : String)
    (hpre : scanChunk b ls1 = .more b1)
    (hc : lineCandidate (rstripCR line.toList) = some (nm, w, vs))
    (hs : 90 ≤ name_score nm) :
    hitWatts (scanChunk b (ls1 ++ line :: ls2)) = some w ∧
    hitName (scanChunk b (ls1 ++ line :: ls2)) = some nm := by
  obtain ⟨b2, h2⟩ := scanLine_hit b1 line nm w vs hc hs
  rw [scanChunk_append, hpre]
  simp only [scanChunk, h2]
  exact ⟨rfl, rfl⟩

/-! ## C1 -/

/-- C1 (amended): for every sensor name the confidence score is computed by
the stated precedence, first match wins — 100 for the fixed aggregate-power
patterns, 90 for the bare word "Power", 20 for the exclusion pattern, 40
for a mere "power" substring, 0 otherwise (including empty or
whitespace-only names).  In a scan with multiple candidates the first
candidate scoring ≥ 90 wins, so a score-100 candidate wins over any
lower-scoring candidate unless a score-90 candidate appears earlier in the
output, in which case that earlier confident candidate is returned. -/
theorem c1_score_precedence :
    (∀ name : String,
        name_score name =
          (if aggNamePat name then 100
           else if plainPowerName name then 90
           else if exclNamePat name then 20
           else if hasPowerSub name then 40
           else 0))
    ∧ (∀ (b b1 : Best) (ls1 ls2 : List String) (line nm : String) (w : ℚ) (vs : String),
        scanChunk b ls1 = .more b1 →
        lineCandidate (rstripCR line.toList) = some (nm, w, vs) →
        90 ≤ name_score nm →
        hitWatts (scanChunk b (ls1 ++ line :: ls2)) = some w ∧
        hitName (scanChunk b (ls1 ++ line :: ls2)) = some nm) := by
  constructor
  · intro name
    unfold name_score aggNamePat plainPowerName exclNamePat hasPowerSub
    by_cases h : pyStrip name.toList = []
    · rw [h]; decide
    · simp only [h, if_false]
  · intro b b1 ls1 ls2 line nm w vs hpre hc hs
    exact scanChunk_first_hit b b1 ls1 ls2 line nm w vs hpre hc hs

theorem c1_score_precedence_witness :
    (name_score "System Power" =
      (if aggNamePat "System Power" then 100
       else if plainPowerName "System Power" then 90
       else if exclNamePat "System Power" then 20
       else if hasPowerSub "System Power" then 40
       else 0))
    ∧ hitWatts (scanChunk initBest
        ([] ++ "Power | 02h | ok | 7.1 | 50 W" :: ["Total Power | 03h | ok | 7.1 | 100 W"]))
        = some (decToRat "50".toList)
    ∧ hitName (scanChunk initBest
        ([] ++ "Power | 02h | ok | 7.1 | 50 W" :: ["Total Power | 03h | ok | 7.1 | 100 W"]))
        = some "Power" := by
  refine ⟨c1_score_precedence.1 "System Power", ?_⟩
  have h := c1_score_precedence.2 initBest initBest []
    ["Total Power | 03h | ok | 7.1 | 100 W"] "Power | 02h | ok | 7.1 | 50 W"
    "Power" (decToRat "50".toList) "50 W" rfl (by rfl) (by decide)
  exact h

/-- C1 counterexample: in a scan containing a score-90 candidate
("Power", 50 W) followed by a score-100 candidate ("Total Power", 100 W),
the scan returns the earlier score-90 candidate, so the score-100
candidate does not win over every lower-scoring candidate. -/
theorem c1_score100_not_always_wins :
    name_score "Total Power" = 100 ∧ name_score "Power" = 90 ∧
    hitWatts (scanChunk initBest
      ["Power           | 02h | ok  |  7.1 | 50 Watts",
       "Total Power     | 03h | ok  |  7.1 | 100 Watts"]) = some 50 ∧
    hitName (scanChunk initBest
      ["Power           | 02h | ok  |  7.1 | 50 Watts",
       "Total Power     | 03h | ok  |  7.1 | 100 Watts"]) = some "Power" ∧
    (50 : ℚ) ≠ 100 := by
  refine ⟨by decide, by decide, ?_, by rfl, by norm_num⟩
  have h : hitWatts (scanChunk initBest
      ["Power           | 02h | ok  |  7.1 | 50 Watts",
       "Total Power     | 03h | ok  |  7.1 | 100 Watts"]) = some (decToRat "50".toList) := by rfl
  rw [h]
  exact congrArg some (by
    show (1 : ℚ) * (((50 : ℕ) : ℚ) + 0) = 50
    norm_num)

/-! ## C2 -/

/-- C2: a scanned line yielding a candidate with score ≥ 90 terminates the
scan immediately — the run's result is the same whether or not any further
output follows, the subordinate process is not left running, and the
runner returns `ok` with that candidate's wattage. -/
theorem c2_confident_short_circuit :
    ∀ (T : ℚ) (err : String) (ls1 ls2 : List String) (line : String) (rest : List Ev)
      (b1 : Best) (nm : String) (w : ℚ) (vs : String),
      0 ≤ T →
      scanChunk initBest ls1 = .more b1 →
      lineCandidate (rstripCR line.toList) = some (nm, w, vs) →
      90 ≤ name_score nm →
      (sdr_elist_stream T err (.data (ls1 ++ line :: ls2) :: rest)).map
          (fun r => r.status) = some .ok
      ∧ (sdr_elist_stream T err (.data (ls1 ++ line :: ls2) :: rest)).map
          (fun r => r.watts) = some (some w)
      ∧ (sdr_elist_stream T err (.data (ls1 ++ line :: ls2) :: rest)).map
          (fun r => r.procAlive) = some false
      ∧ sdr_elist_stream T err (.data (ls1 ++ line :: ls2) :: rest)
          = sdr_elist_stream T err [.data (ls1 ++ [line])] := by
  intro T err ls1 ls2 line rest b1 nm w vs hT hpre hc hs
  obtain ⟨b2, h2⟩ := scanLine_hit b1 line nm w vs hc hs
  have hno : ¬ T < 0 := by exact not_lt.mpr hT
  have hfull : scanChunk initBest (ls1 ++ line :: ls2) = .hit w nm b2 := by
    rw [scanChunk_append, hpre]
    simp only [scanChunk, h2]
  have htrunc : scanChunk initBest (ls1 ++ [line]) = .hit w nm b2 := by
    rw [scanChunk_append, hpre]
    simp only [scanChunk, h2]
  unfold sdr_elist_stream runLoop
  simp [if_neg hno, hfull, htrunc, hitRet]

theorem c2_confident_short_circuit_witness :
    (sdr_elist_stream 12 "" (.data ([] ++ "Power | 02h | ok | 7.1 | 50 W" ::
        ["Total Power | 03h | ok | 7.1 | 100 W"]) :: [.quiet])).map
        (fun r => r.status) = some .ok
    ∧ (sdr_elist_stream 12 "" (.data ([] ++ "Power | 02h | ok | 7.1 | 50 W" ::
        ["Total Power | 03h | ok | 7.1 | 100 W"]) :: [.quiet])).map
        (fun r => r.watts) = some (some (decToRat "50".toList))
    ∧ (sdr_elist_stream 12 "" (.data ([] ++ "Power | 02h | ok | 7.1 | 50 W" ::
        ["Total Power | 03h | ok | 7.1 | 100 W"]) :: [.quiet])).map
        (fun r => r.procAlive) = some false
    ∧ sdr_elist_stream 12 "" (.data ([] ++ "Power | 02h | ok | 7.1 | 50 W" ::
        ["Total Power | 03h | ok | 7.1 | 100 W"]) :: [.quiet])
        = sdr_elist_stream 12 "" [.data ([] ++ ["Power | 02h | ok | 7.1 | 50 W"])] :=
  c2_confident_short_circuit 12 "" [] ["Total Power | 03h | ok | 7.1 | 100 W"]
    "Power | 02h | ok | 7.1 | 50 W" [.quiet] initBest "Power" (decToRat "50".toList)
    "50 W" (by norm_num) rfl (by rfl) (by decide)

/-! ## Runner-loop lemmas (deadline and status/watts invariants) -/

theorem exitRet_status_ne_timeout (clock : ℚ) (best : Best) (rc : Option Int)
    (err : String) : (exitRet clock best rc err).status ≠ .timeout := by
  unfold exitRet
  by_cases h : rc = some 0
  · rw [if_pos h]
    cases best.watts <;> simp
  · rw [if_neg h]
    simp

theorem exitRet_ok_iff (clock : ℚ) (best : Best) (rc : Option Int) (err : String) :
    ((exitRet clock best rc err).status = .ok ↔ (exitRet clock best rc err).watts.isSome) := by
  unfold exitRet
  by_cases h : rc = some 0
  · rw [if_pos h]
    cases best.watts <;> simp
  · rw [if_neg h]
    simp

/-- Invariant: the runner reports `ok` exactly when it carries a wattage. -/
theorem runLoop_ok_iff_watts (deadline : ℚ) (err : String) :
    ∀ (evs : List Ev) (clock : ℚ) (best : Best) (ret : RunRet),
      runLoop deadline err evs clock best = some ret →
      (ret.status = .ok ↔ ret.watts.isSome) := by
  intro evs
  induction evs with
  | nil =>
    intro clock best ret h
    by_cases hd : deadline < clock
    · simp only [runLoop, if_pos hd, Option.some_inj] at h
      subst h
      simp [timeoutRet]
    · simp only [runLoop, if_neg hd] at h
      exact absurd h (by simp)
  | cons ev rest ih =>
    intro clock best ret h
    by_cases hd : deadline < clock
    · simp only [runLoop, if_pos hd, Option.some_inj] at h
      subst h
      simp [timeoutRet]
    · cases ev with
      | data ls =>
        simp only [runLoop, if_neg hd] at h
        cases hs : scanChunk best ls with
        | more b =>
          rw [hs] at h
          exact ih clock b ret h
        | hit w nm b =>
          rw [hs] at h
          simp only [Option.some_inj] at h
          subst h
          simp [hitRet]
      | eof rc =>
        simp only [runLoop, if_neg hd, Option.some_inj] at h
        subst h
        exact exitRet_ok_iff clock best rc err
      | quiet =>
        simp only [runLoop, if_neg hd] at h
        exact ih (clock + pollInterval) best ret h
      | exited rc =>
        simp only [runLoop, if_neg hd, Option.some_inj] at h
        subst h
        exact exitRet_ok_iff clock best (some rc) err

/-- When the runner reports `timeout`: no watts, process terminated, the
return happens strictly after the deadline but within one polling interval
of it, and the compressed stderr text is reported. -/
theorem runLoop_timeout_bounds (deadline : ℚ) (err : String) :
    ∀ (evs : List Ev) (clock : ℚ) (best : Best) (ret : RunRet),
      clock ≤ deadline + pollInterval →
      runLoop deadline err evs clock best = some ret →
      ret.status = .timeout →
      ret.watts = none ∧ ret.procAlive = false ∧ deadline < ret.retTime ∧
      ret.retTime ≤ deadline + pollInterval ∧
      ret.stderrOut = String.mk (compress_one_line err.toList 800) := by
  intro evs
  induction evs with
  | nil =>
    intro clock best ret hclock h _
    by_cases hd : deadline < clock
    · simp only [runLoop, if_pos hd, Option.some_inj] at h
      subst h
      exact ⟨rfl, rfl, hd, hclock, rfl⟩
    · simp only [runLoop, if_neg hd] at h
      exact absurd h (by simp)
  | cons ev rest ih =>
    intro clock best ret hclock h hto
    by_cases hd : deadline < clock
    · simp only [runLoop, if_pos hd, Option.some_inj] at h
      subst h
      exact ⟨rfl, rfl, hd, hclock, rfl⟩
    · have hle : clock ≤ deadline := not_lt.mp hd
      cases ev with
      | data ls =>
        simp only [runLoop, if_neg hd] at h
        cases hs : scanChunk best ls with
        | more b =>
          rw [hs] at h
          exact ih clock b ret hclock h hto
        | hit w nm b =>
          rw [hs] at h
          simp only [Option.some_inj] at h
          subst h
          exact absurd hto (by simp [hitRet])
      | eof rc =>
        simp only [runLoop, if_neg hd, Option.some_inj] at h
        subst h
        exact absurd hto (exitRet_status_ne_timeout clock best rc err)
      | quiet =>
        simp only [runLoop, if_neg hd] at h
        have hclock2 : clock + pollInterval ≤ deadline + pollInterval := by
          exact add_le_add_right hle pollInterval
        exact ih (clock + pollInterval) best ret hclock2 h hto
      | exited rc =>
        simp only [runLoop, if_neg hd, Option.some_inj] at h
        subst h
        exact absurd hto (exitRet_status_ne_timeout clock best (some rc) err)

/-- A schedule the loop consumed completely without returning resumes any
continuation at the accumulated clock with the folded scanner state, and
that clock has not passed the deadline. -/
theorem runLoop_append_none (deadline : ℚ) (err : String) :
    ∀ (evs1 evs2 : List Ev) (clock : ℚ) (best : Best),
      runLoop deadline err evs1 clock best = none →
      runLoop deadline err (evs1 ++ evs2) clock best =
        runLoop deadline err evs2 (clock + quietTime evs1) (bestFold best evs1)
      ∧ clock + quietTime evs1 ≤ deadline := by
  intro evs1
  induction evs1 with
  | nil =>
    intro evs2 clock best h
    by_cases hd : deadline < clock
    · simp only [runLoop, if_pos hd] at h
      exact absurd h (by simp)
    · constructor
      · simp only [List.nil_append, quietTime, bestFold, add_zero]
      · simpa [quietTime] using not_lt.mp hd
  | cons ev rest ih =>
    intro evs2 clock best h
    by_cases hd : deadline < clock
    · simp only [runLoop, if_pos hd] at h
      exact absurd h (by simp)
    · cases ev with
      | data ls =>
        simp only [runLoop, if_neg hd] at h
        cases hs : scanChunk best ls with
        | more b =>
          rw [hs] at h
          have := ih evs2 clock b h
          constructor
          · simp only [List.cons_append, runLoop, if_neg hd, hs]
            refine this.1.trans ?_
            simp only [quietTime, bestFold, hs]
          · simpa only [quietTime, bestFold, hs] using this.2
        | hit w nm b =>
          rw [hs] at h
          exact absurd h (by simp)
      | eof rc =>
        simp only [runLoop, if_neg hd] at h
        exact absurd h (by simp)
      | quiet =>
        simp only [runLoop, if_neg hd] at h
        have := ih evs2 (clock + pollInterval) best h
        have harith : clock + pollInterval + quietTime rest
            = clock + quietTime (Ev.quiet :: rest) := by
          simp only [quietTime]; ring
        constructor
        · simp only [List.cons_append, runLoop, if_neg hd]
          refine this.1.trans ?_
          rw [harith]
          simp only [bestFold]
        · have h2 := this.2
          rw [harith] at h2
          exact h2
      | exited rc =>
        simp only [runLoop, if_neg hd] at h
        exact absurd h (by simp)

/-- A run that only ever sleeps reaches the deadline check and returns the
timeout result carrying the scanner state it entered with, within one
polling interval of the deadline. -/
theorem runLoop_all_quiet_timeout (deadline : ℚ) (err : String) :
    ∀ (n : ℕ) (clock : ℚ) (best : Best),
      deadline < clock + n * pollInterval →
      clock ≤ deadline + pollInterval →
      ∃ t, runLoop deadline err (List.replicate (n + 1) .quiet) clock best
          = some (timeoutRet t best err) ∧ deadline < t ∧ t ≤ deadline + pollInterval := by
  intro n
  induction n with
  | zero =>
    intro clock best h1 h2
    have hd : deadline < clock := by
      simpa using h1
    refine ⟨clock, ?_, hd, h2⟩
    simp only [List.replicate, runLoop, if_pos hd]
  | succ n ih =>
    intro clock best h1 h2
    by_cases hd : deadline < clock
    · refine ⟨clock, ?_, hd, h2⟩
      simp only [List.replicate, runLoop, if_pos hd]
    · have hle : clock ≤ deadline := not_lt.mp hd
      have h1n : deadline < (clock + pollInterval) + n * pollInterval := by
        have : clock + (n + 1 : ℕ) * pollInterval
            = (clock + pollInterval) + n * pollInterval := by
          push_cast
          ring
        rw [this] at h1
        exact h1
      have h2n : clock + pollInterval ≤ deadline + pollInterval :=
        add_le_add_right hle pollInterval
      obtain ⟨t, hrun, ht1, ht2⟩ := ih (clock + pollInterval) best h1n h2n
      refine ⟨t, ?_, ht1, ht2⟩
      have hrep : List.replicate (n + 1 + 1) Ev.quiet
          = Ev.quiet :: List.replicate (n + 1) Ev.quiet := rfl
      rw [hrep]
      simp only [runLoop, if_neg hd]
      exact hrun

/-! ## C3 -/

/-- C3: if the deadline (launch + configured per-call timeout) elapses
before a confident match and before the process exits, the runner returns
`timeout` with no watts, strictly after the deadline but within one
polling interval of it; the subordinate process is no longer running, and
the diagnostics carry the best candidate seen before the cutoff together
with the compressed captured stderr text.  First conjunct: every
`timeout` return satisfies the bounds and field invariants.  Second
conjunct: a schedule the loop has not finished (no confident match, no
exit) followed by enough further sleeps produces exactly such a `timeout`
return, reporting the folded best candidate. -/
theorem c3_deadline_timeout :
    (∀ (T : ℚ) (err : String) (evs : List Ev) (ret : RunRet),
        0 ≤ T → sdr_elist_stream T err evs = some ret → ret.status = .timeout →
        ret.watts = none ∧ ret.procAlive = false ∧ T < ret.retTime ∧
        ret.retTime ≤ T + pollInterval ∧
        ret.stderrOut = String.mk (compress_one_line err.toList 800))
    ∧ (∀ (T : ℚ) (err : String) (evs : List Ev) (n : ℕ),
        runLoop T err evs 0 initBest = none →
        T < quietTime evs + n * pollInterval →
        ∃ t, sdr_elist_stream T err (evs ++ List.replicate (n + 1) .quiet)
            = some (timeoutRet t (bestFold initBest evs) err)
          ∧ T < t ∧ t ≤ T + pollInterval) := by
  constructor
  · intro T err evs ret hT hrun hto
    have h0 : (0 : ℚ) ≤ T + pollInterval := by
      have : (0 : ℚ) ≤ pollInterval := by norm_num [pollInterval]
      linarith
    exact runLoop_timeout_bounds T err evs 0 initBest ret h0 hrun hto
  · intro T err evs n hnone hpass
    obtain ⟨happ, hle⟩ := runLoop_append_none T err evs
      (List.replicate (n + 1) .quiet) 0 initBest hnone
    have hq : quietTime evs ≤ T := by simpa using hle
    have h1 : T < (0 + quietTime evs) + n * pollInterval := by
      rw [zero_add]
      exact hpass
    have h2 : (0 : ℚ) + quietTime evs ≤ T + pollInterval := by
      have : (0 : ℚ) ≤ pollInterval := by norm_num [pollInterval]
      rw [zero_add]
      linarith
    obtain ⟨t, hrun, ht1, ht2⟩ := runLoop_all_quiet_timeout T err n
      (0 + quietTime evs) (bestFold initBest evs) h1 h2
    refine ⟨t, ?_, ht1, ht2⟩
    unfold sdr_elist_stream
    rw [happ]
    exact hrun

theorem c3_deadline_timeout_witness :
    ((timeoutRet (0 + pollInterval) initBest "boom").watts = none
      ∧ (timeoutRet (0 + pollInterval) initBest "boom").procAlive = false
      ∧ (0 : ℚ) < (timeoutRet (0 + pollInterval) initBest "boom").retTime
      ∧ (timeoutRet (0 + pollInterval) initBest "boom").retTime ≤ 0 + pollInterval
      ∧ (timeoutRet (0 + pollInterval) initBest "boom").stderrOut
          = String.mk (compress_one_line "boom".toList 800))
    ∧ (∃ t, sdr_elist_stream 1 "x" ([.quiet] ++ List.replicate (100 + 1) .quiet)
          = some (timeoutRet t (bestFold initBest [.quiet]) "x")
        ∧ 1 < t ∧ t ≤ 1 + pollInterval) := by
  constructor
  · exact c3_deadline_timeout.1 0 "boom" [.quiet, .quiet]
      (timeoutRet (0 + pollInterval) initBest "boom") le_rfl
      (by simp only [sdr_elist_stream, runLoop]; norm_num [pollInterval]) rfl
  · exact c3_deadline_timeout.2 1 "x" [.quiet] 100
      (by simp only [runLoop]; norm_num [pollInterval])
      (by norm_num [quietTime, pollInterval])

/-! ## C4 -/

theorem collapseWs_space_mem :
    ∀ (l : Chars) (b : Bool) (c : Char), c ∈ collapseWs b l → isPySpace c → c = ' ' := by
  intro l
  induction l with
  | nil => intro b c hc; simp [collapseWs] at hc
  | cons c0 rest ih =>
    intro b c hc hsp
    by_cases h0 : isPySpace c0
    · simp only [collapseWs, h0, if_true] at hc
      by_cases hb : b
      · rw [if_pos hb] at hc
        exact ih true c hc hsp
      · rw [if_neg hb] at hc
        rcases List.mem_cons.mp hc with h | h
        · exact h
        · exact ih true c h hsp
    · simp only [collapseWs, h0, if_false] at hc
      rcases List.mem_cons.mp hc with h | h
      · subst h
        exact absurd hsp (by simpa using h0)
      · exact ih false c h hsp

/-- C4: candidates scoring ≤ 20 are discarded and never selected — the
scanner state is untouched by them, even over a whole scan in which no
higher-scoring candidate exists; when the process then exits on its own
with code 0 the runner returns `ok` with the best candidate's watts if one
exists and `noPowerOutputFound` otherwise, and with a non-zero code it
returns the tool error carrying that exit code together with a
single-line, whitespace-collapsed, length-capped stderr excerpt. -/
theorem c4_discard_and_exit_cases :
    (∀ (b : Best) (line nm : String) (w : ℚ) (vs : String),
        lineCandidate (rstripCR line.toList) = some (nm, w, vs) →
        name_score nm ≤ 20 → scanLine b line = .more b)
    ∧ (∀ (b : Best) (ls : List String),
        (∀ line ∈ ls, ∀ nm w vs,
          lineCandidate (rstripCR line.toList) = some (nm, w, vs) →
          name_score nm ≤ 20) →
        scanChunk b ls = .more b)
    ∧ (∀ (T : ℚ) (err : String) (rest : List Ev) (b : Best) (rc : Int),
        0 ≤ T →
        runLoop T err (.exited rc :: rest) 0 b = some (exitRet 0 b (some rc) err))
    ∧ (∀ (clock : ℚ) (b : Best) (err : String) (w : ℚ), b.watts = some w →
        (exitRet clock b (some 0) err).status = .ok
        ∧ (exitRet clock b (some 0) err).watts = some w)
    ∧ (∀ (clock : ℚ) (b : Best) (err : String), b.watts = none →
        (exitRet clock b (some 0) err).status = .no_power_output_sdr
        ∧ (exitRet clock b (some 0) err).watts = none)
    ∧ (∀ (clock : ℚ) (b : Best) (err : String) (rc : Int), rc ≠ 0 →
        (exitRet clock b (some rc) err).status = .ipmitool_error (some rc)
        ∧ (exitRet clock b (some rc) err).watts = none
        ∧ (exitRet clock b (some rc) err).stderrOut
            = String.mk (compress_one_line err.toList 800))
    ∧ (∀ (T : ℚ) (err : String) (ls : List String), 0 ≤ T →
        (∀ line ∈ ls, ∀ nm w vs,
          lineCandidate (rstripCR line.toList) = some (nm, w, vs) →
          name_score nm ≤ 20) →
        sdr_elist_stream T err [.data ls, .exited 0]
          = some (exitRet 0 initBest (some 0) err)
        ∧ (exitRet 0 initBest (some 0) err).status = .no_power_output_sdr)
    ∧ (∀ (s : Chars) (limit : ℕ),
        (compress_one_line s limit).length ≤ limit
        ∧ ∀ c ∈ compress_one_line s limit, isPySpace c → c = ' ') := by
  have hskip : ∀ (b : Best) (line nm : String) (w : ℚ) (vs : String),
      lineCandidate (rstripCR line.toList) = some (nm, w, vs) →
      name_score nm ≤ 20 → scanLine b line = .more b := by
    intro b line nm w vs hc h20
    apply scanLine_skip
    intro nm2 w2 vs2 hc2
    rw [hc] at hc2
    cases hc2
    exact h20
  have hchunk : ∀ (b : Best) (ls : List String),
      (∀ line ∈ ls, ∀ nm w vs,
        lineCandidate (rstripCR line.toList) = some (nm, w, vs) →
        name_score nm ≤ 20) →
      scanChunk b ls = .more b := by
    intro b ls
    induction ls generalizing b with
    | nil => intro _; rfl
    | cons l rest ih =>
      intro h
      have hl : scanLine b l = .more b := by
        apply scanLine_skip
        intro nm w vs hc
        exact h l (List.mem_cons_self l rest) nm w vs hc
      simp only [scanChunk, hl]
      exact ih b (fun line hline => h line (List.mem_cons_of_mem l hline))
  refine ⟨hskip, hchunk, ?_, ?_, ?_, ?_, ?_, ?_⟩
  · intro T err rest b rc hT
    have hno : ¬ T < 0 := not_lt.mpr hT
    simp only [runLoop, if_neg hno]
  · intro clock b err w hw
    simp [exitRet, hw]
  · intro clock b err hw
    simp [exitRet, hw]
  · intro clock b err rc hrc
    have hne : ¬ (some rc = some (0 : Int)) := by
      simp [hrc]
    simp [exitRet, hne]
  · intro T err ls hT h
    have hno : ¬ T < 0 := not_lt.mpr hT
    have hc := hchunk initBest ls h
    constructor
    · simp only [sdr_elist_stream, runLoop, if_neg hno, hc]
    · simp [exitRet, initBest]
  · intro s limit
    constructor
    · calc (compress_one_line s limit).length
          = min limit (collapseWs false (pyStrip s)).length := by
            simp [compress_one_line, List.length_take]
        _ ≤ limit := min_le_left _ _
    · intro c hc hsp
      have hmem : c ∈ collapseWs false (pyStrip s) :=
        (List.take_sublist limit (collapseWs false (pyStrip s))).subset hc
      exact collapseWs_space_mem (pyStrip s) false c hmem hsp

theorem c4_discard_and_exit_cases_witness :
    scanLine initBest "CPU Power | 01h | ok | 7.1 | 20 W" = .more initBest
    ∧ scanChunk initBest ["CPU Power | 01h | ok | 7.1 | 20 W"] = .more initBest
    ∧ runLoop 12 "err" [.exited 1] 0 initBest
        = some (exitRet 0 initBest (some 1) "err")
    ∧ ((exitRet 0 initBest (some 1) "err").status = .ipmitool_error (some 1)
        ∧ (exitRet 0 initBest (some 1) "err").watts = none
        ∧ (exitRet 0 initBest (some 1) "err").stderrOut
            = String.mk (compress_one_line "err".toList 800))
    ∧ (sdr_elist_stream 12 "" [.data ["CPU Power | 01h | ok | 7.1 | 20 W"], .exited 0]
        = some (exitRet 0 initBest (some 0) "")
        ∧ (exitRet 0 initBest (some 0) "").status = .no_power_output_sdr)
    ∧ ((compress_one_line "a\n b".toList 800).length ≤ 800
        ∧ ∀ c ∈ compress_one_line "a\n b".toList 800, isPySpace c → c = ' ') := by
  have hline : ∀ line ∈ ["CPU Power | 01h | ok | 7.1 | 20 W"], ∀ nm w vs,
      lineCandidate (rstripCR line.toList) = some (nm, w, vs) →
      name_score nm ≤ 20 := by
    intro line hl nm w vs hc
    rcases List.mem_singleton.mp hl with h
    subst h
    have : lineCandidate (rstripCR ("CPU Power | 01h | ok | 7.1 | 20 W").toList)
        = some ("CPU Power", decToRat "20".toList, "20 W") := by rfl
    rw [this] at hc
    cases hc
    decide
  refine ⟨?_, ?_, ?_, ?_, ?_, ?_⟩
  · exact c4_discard_and_exit_cases.1 initBest "CPU Power | 01h | ok | 7.1 | 20 W"
      "CPU Power" (decToRat "20".toList) "20 W" (by rfl) (by decide)
  · exact c4_discard_and_exit_cases.2.1 initBest ["CPU Power | 01h | ok | 7.1 | 20 W"] hline
  · exact c4_discard_and_exit_cases.2.2.1 12 "err" [] initBest 1 (by norm_num)
  · exact c4_discard_and_exit_cases.2.2.2.2.2.1 0 initBest "err" 1 (by norm_num)
  · exact c4_discard_and_exit_cases.2.2.2.2.2.2.1 12 ""
      ["CPU Power | 01h | ok | 7.1 | 20 W"] (by norm_num) hline
  · exact c4_discard_and_exit_cases.2.2.2.2.2.2.2 "a\n b".toList 800

/-! ## Retry-controller lemmas -/

theorem queryGo_eq (f : ℕ → AttemptOut) :
    ∀ (rem a : ℕ) (logs : List (ℕ × AttemptOut)) (st : Status),
      queryGo f a rem logs st =
        ⟨(queryOut f a rem st).1, (queryOut f a rem st).2,
         logs.reverse ++ attemptsTrace f a rem⟩ := by
  intro rem
  induction rem with
  | zero => intro a logs st; simp [queryGo, queryOut, attemptsTrace]
  | succ rem ih =>
    intro a logs st
    by_cases h : (f a).status = .ok ∧ (f a).watts.isSome
    · simp only [queryGo, queryOut, attemptsTrace, if_pos h]
      simp
    · simp only [queryGo, queryOut, attemptsTrace, if_neg h]
      rw [ih]
      simp

theorem attemptsTrace_length_le (f : ℕ → AttemptOut) :
    ∀ (rem a : ℕ), (attemptsTrace f a rem).length ≤ rem := by
  intro rem
  induction rem with
  | zero => intro a; simp [attemptsTrace]
  | succ rem ih =>
    intro a
    by_cases h : (f a).status = .ok ∧ (f a).watts.isSome
    · simp [attemptsTrace, if_pos h]
    · simp only [attemptsTrace, if_neg h, List.length_cons]
      exact Nat.succ_le_succ (ih (a + 1))

theorem attemptsTrace_eq_range (f : ℕ → AttemptOut) :
    ∀ (rem a : ℕ), attemptsTrace f a rem
      = (List.range' a (attemptsTrace f a rem).length).map (fun j => (j, f j)) := by
  intro rem
  induction rem with
  | zero => intro a; simp [attemptsTrace]
  | succ rem ih =>
    intro a
    by_cases h : (f a).status = .ok ∧ (f a).watts.isSome
    · simp [attemptsTrace, if_pos h, List.range'_succ]
    · simp only [attemptsTrace, if_neg h, List.length_cons, List.range'_succ, List.map_cons]
      rw [← ih (a + 1)]

theorem queryOut_first_ok (f : ℕ → AttemptOut)
    (hinv : ∀ j, (f j).status = .ok → (f j).watts.isSome) :
    ∀ (rem a k : ℕ) (st : Status), a ≤ k → k < a + rem →
      (f k).status = .ok →
      (∀ j, a ≤ j → j < k → (f j).status ≠ .ok) →
      queryOut f a rem st = ((f k).watts, .ok)
      ∧ (attemptsTrace f a rem).length = k - a + 1 := by
  intro rem
  induction rem with
  | zero => intro a k st h1 h2 _ _; omega
  | succ rem ih =>
    intro a k st h1 h2 hk hne
    by_cases hak : a = k
    · subst hak
      have hcond : (f a).status = .ok ∧ (f a).watts.isSome := ⟨hk, hinv a hk⟩
      constructor
      · simp [queryOut, if_pos hcond]
      · simp [attemptsTrace, if_pos hcond]
    · have halt : a < k := lt_of_le_of_ne h1 hak
      have hcond : ¬ ((f a).status = .ok ∧ (f a).watts.isSome) := by
        intro hc
        exact hne a le_rfl halt hc.1
      have hrec := ih (a + 1) k (f a).status halt (by omega) hk
        (fun j hj1 hj2 => hne j (by omega) hj2)
      constructor
      · simp only [queryOut, if_neg hcond]
        exact hrec.1
      · simp only [attemptsTrace, if_neg hcond, List.length_cons, hrec.2]
        omega

theorem queryOut_succ (f : ℕ → AttemptOut) (a rem : ℕ) (st : Status) :
    queryOut f a (rem + 1) st =
      if (f a).status = .ok ∧ (f a).watts.isSome then ((f a).watts, .ok)
      else queryOut f (a + 1) rem (f a).status := rfl

theorem attemptsTrace_succ (f : ℕ → AttemptOut) (a rem : ℕ) :
    attemptsTrace f a (rem + 1) =
      if (f a).status = .ok ∧ (f a).watts.isSome then [(a, f a)]
      else (a, f a) :: attemptsTrace f (a + 1) rem := rfl

theorem queryOut_no_ok (f : ℕ → AttemptOut) :
    ∀ (rem a : ℕ) (st : Status), 1 ≤ rem →
      (∀ j, a ≤ j → j < a + rem → (f j).status ≠ .ok) →
      queryOut f a rem st = (none, (f (a + rem - 1)).status)
      ∧ (attemptsTrace f a rem).length = rem := by
  intro rem
  induction rem with
  | zero => intro a st h; omega
  | succ rem ih =>
    intro a st _ hne
    have hcond : ¬ ((f a).status = .ok ∧ (f a).watts.isSome) := by
      intro hc
      exact hne a le_rfl (by omega) hc.1
    cases rem with
    | zero =>
      constructor
      · simp [queryOut, if_neg hcond]
      · simp [attemptsTrace, if_neg hcond]
    | succ m =>
      have hrec := ih (a + 1) (f a).status (by omega)
        (fun j hj1 hj2 => hne j (by omega) (by omega))
      have harg : a + 1 + (m + 1) - 1 = a + (m + 1 + 1) - 1 := by omega
      constructor
      · rw [queryOut_succ, if_neg hcond, hrec.1, harg]
      · rw [attemptsTrace_succ, if_neg hcond, List.length_cons, hrec.2]

theorem queryOut_watts_iff (f : ℕ → AttemptOut)
    (hinv : ∀ j, (f j).status = .ok → (f j).watts.isSome) :
    ∀ (rem a : ℕ) (st : Status), st ≠ .ok →
      ((queryOut f a rem st).1.isSome ↔ (queryOut f a rem st).2 = .ok) := by
  intro rem
  induction rem with
  | zero => intro a st hst; simp [queryOut, hst]
  | succ rem ih =>
    intro a st hst
    by_cases h : (f a).status = .ok ∧ (f a).watts.isSome
    · rw [queryOut_succ, if_pos h]
      simp [h.2]
    · have hne : (f a).status ≠ .ok := by
        intro hok
        exact h ⟨hok, hinv a hok⟩
      rw [queryOut_succ, if_neg h]
      exact ih (a + 1) (f a).status hne

theorem one_le_maxAttempts (retries : Int) : 1 ≤ maxAttempts retries := by
  unfold maxAttempts
  omega

/-! ## C5 -/

/-- C5: the retry controller performs at most the configured attempt count
(≥ 1) of runner invocations, stops immediately at the first attempt whose
status is `ok` and returns `ok` with that attempt's watts, otherwise
returns the status of the final failing attempt with no watts; all
per-attempt diagnostics are preserved in attempt order. -/
theorem c5_retry_controller :
    ∀ (retries : Int) (f : ℕ → AttemptOut),
      (∀ j, (f j).status = .ok → (f j).watts.isSome) →
      1 ≤ maxAttempts retries
      ∧ (query_one retries f).logs.length ≤ maxAttempts retries
      ∧ (query_one retries f).logs =
          (List.range' 1 (query_one retries f).logs.length).map (fun j => (j, f j))
      ∧ (∀ k, 1 ≤ k → k ≤ maxAttempts retries → (f k).status = .ok →
          (∀ j, 1 ≤ j → j < k → (f j).status ≠ .ok) →
          (query_one retries f).finalStatus = .ok
          ∧ (query_one retries f).finalWatts = (f k).watts
          ∧ (query_one retries f).logs.length = k)
      ∧ ((∀ j, 1 ≤ j → j ≤ maxAttempts retries → (f j).status ≠ .ok) →
          (query_one retries f).finalStatus = (f (maxAttempts retries)).status
          ∧ (query_one retries f).finalWatts = none
          ∧ (query_one retries f).logs.length = maxAttempts retries) := by
  intro retries f hinv
  have hq : query_one retries f =
      ⟨(queryOut f 1 (maxAttempts retries) .unknown).1,
       (queryOut f 1 (maxAttempts retries) .unknown).2,
       attemptsTrace f 1 (maxAttempts retries)⟩ := by
    unfold query_one
    rw [queryGo_eq]
    simp
  refine ⟨one_le_maxAttempts retries, ?_, ?_, ?_, ?_⟩
  · rw [hq]
    exact attemptsTrace_length_le f (maxAttempts retries) 1
  · rw [hq]
    exact attemptsTrace_eq_range f (maxAttempts retries) 1
  · intro k hk1 hk2 hok hne
    have h := queryOut_first_ok f hinv (maxAttempts retries) 1 k .unknown hk1
      (by omega) hok hne
    rw [hq]
    refine ⟨?_, ?_, ?_⟩
    · simp only [h.1]
    · simp only [h.1]
    · simp only [h.2]
      omega
  · intro hne
    have h := queryOut_no_ok f (maxAttempts retries) 1 .unknown
      (one_le_maxAttempts retries)
      (fun j hj1 hj2 => hne j hj1 (by omega))
    rw [hq]
    have harg : 1 + maxAttempts retries - 1 = maxAttempts retries := by omega
    refine ⟨?_, ?_, ?_⟩
    · simp only [h.1, harg]
    · simp only [h.1]
    · exact h.2

theorem c5_retry_controller_witness :
    1 ≤ maxAttempts 1
    ∧ (query_one 1 (fun _ => ⟨some 50, .ok⟩)).logs.length ≤ maxAttempts 1
    ∧ (query_one 1 (fun _ => ⟨some 50, .ok⟩)).logs =
        (List.range' 1 (query_one 1 (fun _ => ⟨some 50, .ok⟩)).logs.length).map
          (fun j => (j, (fun _ => (⟨some 50, .ok⟩ : AttemptOut)) j))
    ∧ (∀ k, 1 ≤ k → k ≤ maxAttempts 1 →
        ((fun _ => (⟨some 50, .ok⟩ : AttemptOut)) k).status = .ok →
        (∀ j, 1 ≤ j → j < k →
          ((fun _ => (⟨some 50, .ok⟩ : AttemptOut)) j).status ≠ .ok) →
        (query_one 1 (fun _ => ⟨some 50, .ok⟩)).finalStatus = .ok
        ∧ (query_one 1 (fun _ => ⟨some 50, .ok⟩)).finalWatts
            = ((fun _ => (⟨some 50, .ok⟩ : AttemptOut)) k).watts
        ∧ (query_one 1 (fun _ => ⟨some 50, .ok⟩)).logs.length = k)
    ∧ ((∀ j, 1 ≤ j → j ≤ maxAttempts 1 →
          ((fun _ => (⟨some 50, .ok⟩ : AttemptOut)) j).status ≠ .ok) →
        (query_one 1 (fun _ => ⟨some 50, .ok⟩)).finalStatus
            = ((fun _ => (⟨some 50, .ok⟩ : AttemptOut)) (maxAttempts 1)).status
        ∧ (query_one 1 (fun _ => ⟨some 50, .ok⟩)).finalWatts = none
        ∧ (query_one 1 (fun _ => ⟨some 50, .ok⟩)).logs.length = maxAttempts 1) :=
  c5_retry_controller 1 (fun _ => ⟨some 50, .ok⟩) (fun _ _ => rfl)

/-! ## C9 -/

/-- C9: a detail row carries a watts value exactly when its final status is
`ok` — for rows built from the retry controller (whose runner attempts
satisfy the runner's own ok-iff-watts invariant, re-proved here as the
last conjunct) and for the orchestrator's exception rows, which carry no
watts and a non-`ok` status. -/
theorem c9_watts_iff_ok :
    ∀ (retries : Int) (f : ℕ → AttemptOut) (h : HostRec) (e : String),
      (∀ j, (f j).status = .ok → (f j).watts.isSome) →
      ((detailRowOf h retries (query_one retries f)).watts.isSome
        ↔ (detailRowOf h retries (query_one retries f)).status = .ok)
      ∧ (exceptionRow h e).watts = none
      ∧ (exceptionRow h e).status ≠ .ok
      ∧ (∀ (T : ℚ) (err : String) (evs : List Ev) (ret : RunRet),
          sdr_elist_stream T err evs = some ret →
          (ret.watts.isSome ↔ ret.status = .ok)) := by
  intro retries f h e hinv
  refine ⟨?_, rfl, by simp [exceptionRow], ?_⟩
  · have hq : query_one retries f =
        ⟨(queryOut f 1 (maxAttempts retries) .unknown).1,
         (queryOut f 1 (maxAttempts retries) .unknown).2,
         attemptsTrace f 1 (maxAttempts retries)⟩ := by
      unfold query_one
      rw [queryGo_eq]
      simp
    have hiff := queryOut_watts_iff f hinv (maxAttempts retries) 1 .unknown (by simp)
    have hmap : ∀ (x : Option ℚ), (Option.map round1 x).isSome = x.isSome := by
      intro x; cases x <;> rfl
    simp only [detailRowOf, hq, hmap]
    exact hiff
  · intro T err evs ret hrun
    exact (runLoop_ok_iff_watts T err evs 0 initBest ret hrun).symm

theorem c9_watts_iff_ok_witness :
    ((detailRowOf ⟨"R1", "A", "h1", "10.0.0.1"⟩ 1
        (query_one 1 (fun _ => ⟨some 50, .ok⟩))).watts.isSome
      ↔ (detailRowOf ⟨"R1", "A", "h1", "10.0.0.1"⟩ 1
        (query_one 1 (fun _ => ⟨some 50, .ok⟩))).status = .ok)
    ∧ (exceptionRow ⟨"R1", "A", "h1", "10.0.0.1"⟩ "boom").watts = none
    ∧ (exceptionRow ⟨"R1", "A", "h1", "10.0.0.1"⟩ "boom").status ≠ .ok
    ∧ (∀ (T : ℚ) (err : String) (evs : List Ev) (ret : RunRet),
        sdr_elist_stream T err evs = some ret →
        (ret.watts.isSome ↔ ret.status = .ok)) :=
  c9_watts_iff_ok 1 (fun _ => ⟨some 50, .ok⟩) ⟨"R1", "A", "h1", "10.0.0.1"⟩ "boom"
    (fun _ _ => rfl)

/-! ## C10 -/

/-- C10: the detail row's `attempts` cell always equals the configured
maximum attempt count `max(1, retries + 1)`, not the number of attempts
actually performed; when the host succeeds at attempt `k` before
exhausting the attempts, the recorded attempt-log sequence has length `k`
(the attempts actually made), strictly less than the reported count. -/
theorem c10_attempts_field_is_max :
    ∀ (retries : Int) (f : ℕ → AttemptOut) (h : HostRec),
      (∀ j, (f j).status = .ok → (f j).watts.isSome) →
      (detailRowOf h retries (query_one retries f)).attemptsField = maxAttempts retries
      ∧ (∀ k, 1 ≤ k → k ≤ maxAttempts retries → (f k).status = .ok →
          (∀ j, 1 ≤ j → j < k → (f j).status ≠ .ok) →
          (detailRowOf h retries (query_one retries f)).logs.length = k
          ∧ (k < maxAttempts retries →
              (detailRowOf h retries (query_one retries f)).logs.length
                < (detailRowOf h retries (query_one retries f)).attemptsField)) := by
  intro retries f h hinv
  have hq : query_one retries f =
      ⟨(queryOut f 1 (maxAttempts retries) .unknown).1,
       (queryOut f 1 (maxAttempts retries) .unknown).2,
       attemptsTrace f 1 (maxAttempts retries)⟩ := by
    unfold query_one
    rw [queryGo_eq]
    simp
  refine ⟨rfl, ?_⟩
  intro k hk1 hk2 hok hne
  have hlen := (queryOut_first_ok f hinv (maxAttempts retries) 1 k .unknown hk1
    (by omega) hok hne).2
  have hl : (detailRowOf h retries (query_one retries f)).logs.length = k := by
    simp only [detailRowOf, hq]
    omega
  refine ⟨hl, ?_⟩
  intro hlt
  rw [hl]
  simpa [detailRowOf] using hlt

theorem c10_attempts_field_is_max_witness :
    (detailRowOf ⟨"R1", "A", "h1", "10.0.0.1"⟩ 1
        (query_one 1 (fun _ => ⟨some 50, .ok⟩))).attemptsField = maxAttempts 1
    ∧ (∀ k, 1 ≤ k → k ≤ maxAttempts 1 →
        ((fun _ => (⟨some 50, .ok⟩ : AttemptOut)) k).status = .ok →
        (∀ j, 1 ≤ j → j < k →
          ((fun _ => (⟨some 50, .ok⟩ : AttemptOut)) j).status ≠ .ok) →
        (detailRowOf ⟨"R1", "A", "h1", "10.0.0.1"⟩ 1
            (query_one 1 (fun _ => ⟨some 50, .ok⟩))).logs.length = k
        ∧ (k < maxAttempts 1 →
            (detailRowOf ⟨"R1", "A", "h1", "10.0.0.1"⟩ 1
                (query_one 1 (fun _ => ⟨some 50, .ok⟩))).logs.length
              < (detailRowOf ⟨"R1", "A", "h1", "10.0.0.1"⟩ 1
                (query_one 1 (fun _ => ⟨some 50, .ok⟩))).attemptsField)) :=
  c10_attempts_field_is_max 1 (fun _ => ⟨some 50, .ok⟩) ⟨"R1", "A", "h1", "10.0.0.1"⟩
    (fun _ _ => rfl)

/-! ## C7 -/

theorem decToRat_342 : decToRat "342".toList = 342 := by
  show (1 : ℚ) * (((342 : ℕ) : ℚ) + 0) = 342
  norm_num

/-- C7: wattage extraction first looks for a signed decimal number
immediately followed by a watt unit token anywhere in the value field, and
only when none is found accepts the field's first whitespace-delimited
token, and only when that token is itself a bare signed decimal number;
lines yielding no number produce no candidate.  The line
`"Sys Power        | 08h | ok  |  7.1 | 342 Watts"` yields the candidate
(name "Sys Power", watts 342.0, score 40) with value text "342 Watts",
showing unit-qualified extraction takes precedence. -/
theorem c7_extraction_order :
    (∀ (vf g1 g0 : Chars), searchNumUnit vf = some (g1, g0) →
        extractWatts vf = some (decToRat g1, g0))
    ∧ (∀ vf : Chars, searchNumUnit vf = none → isBareNum (firstToken vf) = true →
        extractWatts vf = some (decToRat (firstToken vf), firstToken vf))
    ∧ (∀ vf : Chars, searchNumUnit vf = none → isBareNum (firstToken vf) = false →
        extractWatts vf = none)
    ∧ (∀ line : Chars,
        extractWatts (valueFieldOf ((splitPipe line).map pyStrip)) = none →
        lineCandidate line = none)
    ∧ lineCandidate ("Sys Power        | 08h | ok  |  7.1 | 342 Watts".toList)
        = some ("Sys Power", 342, "342 Watts")
    ∧ name_score "Sys Power" = 40
    ∧ scanLine initBest "Sys Power        | 08h | ok  |  7.1 | 342 Watts"
        = .more ⟨40, some 342, "Sys Power", "342 Watts",
                 "Sys Power | 08h | ok | 7.1 | 342 Watts"⟩ := by
  refine ⟨?_, ?_, ?_, ?_, ?_, by decide, ?_⟩
  · intro vf g1 g0 h
    simp only [extractWatts, h]
  · intro vf h hb
    simp only [extractWatts, h, hb, if_true]
  · intro vf h hb
    simp only [extractWatts, h, hb, Bool.false_eq_true, if_false]
  · intro line h
    unfold lineCandidate
    by_cases hp : line.contains '|'
    · simp only [hp, if_true, h]
    · simp only [hp, Bool.false_eq_true, if_false]
  · have h0 : lineCandidate ("Sys Power        | 08h | ok  |  7.1 | 342 Watts".toList)
        = some ("Sys Power", decToRat "342".toList, "342 Watts") := by rfl
    rw [h0, decToRat_342]
  · have h0 : scanLine initBest "Sys Power        | 08h | ok  |  7.1 | 342 Watts"
        = .more ⟨40, some (decToRat "342".toList), "Sys Power", "342 Watts",
                 "Sys Power | 08h | ok | 7.1 | 342 Watts"⟩ := by rfl
    rw [h0, decToRat_342]

theorem c7_extraction_order_witness :
    extractWatts ("342 Watts".toList)
      = some (decToRat "342".toList, "342 Watts".toList)
    ∧ extractWatts ("45 degrees C".toList)
      = some (decToRat (firstToken ("45 degrees C".toList)), firstToken ("45 degrees C".toList))
    ∧ extractWatts ("No Reading".toList) = none
    ∧ lineCandidate ("no pipes at all".toList) = none := by
  refine ⟨?_, ?_, ?_, ?_⟩
  · exact c7_extraction_order.1 ("342 Watts".toList) ("342".toList)
      ("342 Watts".toList) rfl
  · exact c7_extraction_order.2.1 ("45 degrees C".toList) rfl rfl
  · exact c7_extraction_order.2.2.1 ("No Reading".toList) rfl rfl
  · exact c7_extraction_order.2.2.2.1 ("no pipes at all".toList) rfl

/-! ## C8 -/

/-- C8: every exception escaping a per-host task is converted into a detail
row with the distinguished exception status, zero reported attempts, an
empty attempt log and no watts; the orchestrator still produces exactly
one row per inventory host (row `i` is determined by host `i` alone, so no
per-host failure aborts the run or affects another host's row). -/
theorem c8_exception_isolation :
    ∀ (retries : Int) (hosts : List HostRec) (task : HostRec → Except String QueryRes),
      (mainRows retries hosts task).length = hosts.length
      ∧ (∀ i : ℕ, (mainRows retries hosts task).get? i
          = (hosts.get? i).map (fun h => taskRow retries h (task h)))
      ∧ (∀ (h : HostRec) (e : String), task h = .error e →
          taskRow retries h (task h)
            = ⟨h.room, h.rack, h.name, none, .exception e, 0, []⟩)
      ∧ (∀ (h : HostRec) (e : String), h ∈ hosts → task h = .error e →
          (⟨h.room, h.rack, h.name, none, .exception e, 0, []⟩ : DetailRow)
            ∈ mainRows retries hosts task) := by
  intro retries hosts task
  have hrow : ∀ (h : HostRec) (e : String), task h = .error e →
      taskRow retries h (task h)
        = ⟨h.room, h.rack, h.name, none, .exception e, 0, []⟩ := by
    intro h e he
    rw [he]
    rfl
  refine ⟨by simp [mainRows], ?_, hrow, ?_⟩
  · intro i
    simp [mainRows, List.get?_map]
  · intro h e hmem he
    have : (⟨h.room, h.rack, h.name, none, .exception e, 0, []⟩ : DetailRow)
        = taskRow retries h (task h) := (hrow h e he).symm
    rw [this]
    exact List.mem_map_of_mem (fun x => taskRow retries x (task x)) hmem

theorem c8_exception_isolation_witness :
    (mainRows 1 [⟨"R1", "A", "h1", "10.0.0.1"⟩]
        (fun _ => .error "boom")).length = [(⟨"R1", "A", "h1", "10.0.0.1"⟩ : HostRec)].length
    ∧ (∀ i : ℕ, (mainRows 1 [⟨"R1", "A", "h1", "10.0.0.1"⟩]
          (fun _ => .error "boom")).get? i
        = ([(⟨"R1", "A", "h1", "10.0.0.1"⟩ : HostRec)].get? i).map
            (fun h => taskRow 1 h ((fun _ => Except.error "boom") h)))
    ∧ (∀ (h : HostRec) (e : String),
        (fun (_ : HostRec) => (Except.error "boom" : Except String QueryRes)) h = .error e →
        taskRow 1 h ((fun _ => Except.error "boom") h)
          = ⟨h.room, h.rack, h.name, none, .exception e, 0, []⟩)
    ∧ (∀ (h : HostRec) (e : String), h ∈ [(⟨"R1", "A", "h1", "10.0.0.1"⟩ : HostRec)] →
        (fun (_ : HostRec) => (Except.error "boom" : Except String QueryRes)) h = .error e →
        (⟨h.room, h.rack, h.name, none, .exception e, 0, []⟩ : DetailRow)
          ∈ mainRows 1 [⟨"R1", "A", "h1", "10.0.0.1"⟩] (fun _ => .error "boom")) :=
  c8_exception_isolation 1 [⟨"R1", "A", "h1", "10.0.0.1"⟩] (fun _ => .error "boom")

/-! ## C6 -/

theorem uniqFirst_mem :
    ∀ (l seen : List String) (x : String),
      x ∈ uniqFirst seen l ↔ (x ∈ l ∧ x ∉ seen) := by
  intro l
  induction l with
  | nil => intro seen x; simp [uniqFirst]
  | cons y ys ih =>
    intro seen x
    by_cases hy : y ∈ seen
    · rw [uniqFirst, if_pos hy, ih seen x]
      constructor
      · rintro ⟨h1, h2⟩
        exact ⟨List.mem_cons_of_mem y h1, h2⟩
      · rintro ⟨h1, h2⟩
        rcases List.mem_cons.mp h1 with h | h
        · subst h; exact absurd hy h2
        · exact ⟨h, h2⟩
    · rw [uniqFirst, if_neg hy]
      constructor
      · intro h
        rcases List.mem_cons.mp h with h | h
        · subst h
          exact ⟨List.mem_cons_self _ _, hy⟩
        · have h2 := (ih (y :: seen) x).mp h
          refine ⟨List.mem_cons_of_mem y h2.1, ?_⟩
          intro hx
          exact h2.2 (List.mem_cons_of_mem y hx)
      · rintro ⟨h1, h2⟩
        by_cases hxy : x = y
        · subst hxy
          exact List.mem_cons_self x _
        · apply List.mem_cons_of_mem
          apply (ih (y :: seen) x).mpr
          refine ⟨?_, ?_⟩
          · rcases List.mem_cons.mp h1 with h | h
            · exact absurd h hxy
            · exact h
          · intro hx
            rcases List.mem_cons.mp hx with h | h
            · exact hxy h
            · exact h2 h

/-- The cell filter (`watts` is a number) and the claim's filter
(`status == ok`) select the same rows when watts-present iff ok. -/
theorem sumWattsIf_eq_ok (p : DetailRow → Bool) :
    ∀ rows : List DetailRow,
      (∀ r ∈ rows, (r.watts.isSome ↔ r.status = Status.ok)) →
      sumWattsIf p rows = okStatusWattsSum p rows := by
  intro rows
  induction rows with
  | nil => intro _; rfl
  | cons r rs ih =>
    intro h
    have hr := h r (List.mem_cons_self r rs)
    have hrs := ih (fun x hx => h x (List.mem_cons_of_mem r hx))
    have step : ∀ (g : DetailRow → Option ℚ) (l : List DetailRow),
        (List.filterMap g (r :: l)).sum
          = (match g r with | none => 0 | some w => w) + (List.filterMap g l).sum := by
      intro g l
      cases hg : g r <;> simp [List.filterMap_cons, hg]
    unfold sumWattsIf okStatusWattsSum
    rw [step, step]
    have hhead : (match (if p r then r.watts else none) with | none => (0 : ℚ) | some w => w)
        = (match (if p r ∧ r.status = Status.ok then r.watts else none)
            with | none => (0 : ℚ) | some w => w) := by
      by_cases hp : p r
      · by_cases hok : r.status = Status.ok
        · rw [if_pos hp, if_pos ⟨hp, hok⟩]
        · have hnone : r.watts = none := by
            cases hwc : r.watts with
            | none => rfl
            | some w =>
              exact absurd (hr.mp (by simp [hwc])) hok
          rw [if_pos hp, hnone, if_neg (fun hc => hok hc.2)]
      · rw [if_neg hp, if_neg (fun hc => hp hc.1)]
    rw [hhead]
    exact congrArg _ hrs

theorem round1_tenth (z : ℤ) : round1 ((z : ℚ) / 10) = (z : ℚ) / 10 := by
  unfold round1 roundHalfEven
  have h10 : ((z : ℚ) / 10) * 10 = (z : ℚ) := by
    field_simp
  rw [h10, Int.floor_intCast]
  norm_num

theorem sum_tenths :
    ∀ (l : List ℚ), (∀ x ∈ l, ∃ z : ℤ, x = z / 10) → ∃ z : ℤ, l.sum = z / 10 := by
  intro l
  induction l with
  | nil => intro _; exact ⟨0, by norm_num⟩
  | cons a rest ih =>
    intro h
    obtain ⟨za, ha⟩ := h a (List.mem_cons_self a rest)
    obtain ⟨zs, hs⟩ := ih (fun x hx => h x (List.mem_cons_of_mem a hx))
    refine ⟨za + zs, ?_⟩
    rw [List.sum_cons, ha, hs]
    push_cast
    ring

theorem presentTotal_tenth (w : ℚ) (h : ∃ z : ℤ, w = z / 10) : presentTotal w = w := by
  obtain ⟨z, hz⟩ := h
  unfold presentTotal
  by_cases h0 : w ≠ 0
  · rw [if_pos h0, hz, round1_tenth]
  · rw [if_neg h0]
    push_neg at h0
    exact h0.symm

theorem sumWattsIf_tenth (p : DetailRow → Bool) (rows : List DetailRow)
    (hq : ∀ r ∈ rows, ∀ w, r.watts = some w → ∃ z : ℤ, w = z / 10) :
    ∃ z : ℤ, sumWattsIf p rows = z / 10 := by
  apply sum_tenths
  intro x hx
  obtain ⟨r, hr, hrx⟩ := List.mem_filterMap.mp hx
  by_cases hp : p r
  · rw [if_pos hp] at hrx
    exact hq r hr x hrx
  · rw [if_neg hp] at hrx
    exact absurd hrx (by simp)

/-- C6: every room and every (room, rack) pair present in the detail rows
(one row per inventory host) appears in the summary; the reported rack
(and room-subtotal) totals equal the exact sum of watts over the rows of
that location with status `ok` (detail watts are tenth-multiples, since
the engine rounds them to one decimal); and a pair with no `ok` samples
reports total 0, not absence. -/
theorem c6_summary_totals :
    ∀ (rows : List DetailRow),
      (∀ r ∈ rows, (r.watts.isSome ↔ r.status = Status.ok)) →
      (∀ r ∈ rows, ∀ w, r.watts = some w → ∃ z : ℤ, w = z / 10) →
      (∀ rm rk, (∃ r ∈ rows, r.room = rm ∧ r.rack = rk) →
          (⟨rm, rk, rk,
            some (okStatusWattsSum (fun r => r.room = rm && r.rack = rk) rows)⟩ : SumRow)
            ∈ build_room_rack_summary rows)
      ∧ (∀ rm, (∃ r ∈ rows, r.room = rm) →
          (⟨rm, "", "小计（" ++ rm ++ "）",
            some (okStatusWattsSum (fun r => r.room = rm) rows)⟩ : SumRow)
            ∈ build_room_rack_summary rows)
      ∧ (∀ rm rk, (∀ r ∈ rows, r.room = rm → r.rack = rk → r.status ≠ Status.ok) →
          okStatusWattsSum (fun r => r.room = rm && r.rack = rk) rows = 0) := by
  intro rows hw hq
  have hpt : ∀ (p : DetailRow → Bool),
      presentTotal (sumWattsIf p rows) = okStatusWattsSum p rows := by
    intro p
    rw [presentTotal_tenth _ (sumWattsIf_tenth p rows hq), sumWattsIf_eq_ok p rows hw]
  refine ⟨?_, ?_, ?_⟩
  · rintro rm rk ⟨r, hr, hrm, hrk⟩
    unfold build_room_rack_summary
    rw [List.mem_flatMap]
    refine ⟨rm, ?_, ?_⟩
    · exact (uniqFirst_mem _ [] rm).mpr
        ⟨List.mem_map.mpr ⟨r, hr, hrm⟩, by simp⟩
    · apply List.mem_cons_of_mem
      apply List.mem_append_left
      apply List.mem_map.mpr
      refine ⟨rk, ?_, ?_⟩
      · exact (uniqFirst_mem _ [] rk).mpr
          ⟨List.mem_map.mpr ⟨r, List.mem_filter.mpr ⟨hr, by simp [hrm]⟩, hrk⟩, by simp⟩
      · have : presentTotal (rackSum rows rm rk)
            = okStatusWattsSum (fun r => r.room = rm && r.rack = rk) rows := by
          unfold rackSum
          exact hpt _
        rw [this]
  · rintro rm ⟨r, hr, hrm⟩
    unfold build_room_rack_summary
    rw [List.mem_flatMap]
    refine ⟨rm, ?_, ?_⟩
    · exact (uniqFirst_mem _ [] rm).mpr
        ⟨List.mem_map.mpr ⟨r, hr, hrm⟩, by simp⟩
    · apply List.mem_cons_of_mem
      apply List.mem_append_right
      have : presentTotal (roomSum rows rm)
          = okStatusWattsSum (fun r => r.room = rm) rows := by
        unfold roomSum
        exact hpt _
      rw [← this]
      exact List.mem_cons_self _ _
  · intro rm rk hno
    unfold okStatusWattsSum
    have : rows.filterMap (fun r =>
        if (r.room = rm && r.rack = rk : Bool) ∧ r.status = Status.ok
        then r.watts else none) = [] := by
      rw [List.filterMap_eq_nil]
      intro r hr
      rw [if_neg]
      rintro ⟨hp, hok⟩
      have hp2 := hp
      simp only [Bool.and_eq_true, decide_eq_true_eq] at hp2
      exact hno r hr hp2.1 hp2.2 hok
    rw [this]
    rfl

theorem c6_summary_totals_witness :
    ((⟨"R1", "A", "A",
        some (okStatusWattsSum (fun r => r.room = "R1" && r.rack = "A")
          [⟨"R1", "A", "h1", some 100, Status.ok, 2, []⟩,
           ⟨"R1", "B", "h2", none, Status.timeout, 2, []⟩])⟩ : SumRow)
      ∈ build_room_rack_summary
          [⟨"R1", "A", "h1", some 100, Status.ok, 2, []⟩,
           ⟨"R1", "B", "h2", none, Status.timeout, 2, []⟩])
    ∧ ((⟨"R1", "", "小计（" ++ "R1" ++ "）",
        some (okStatusWattsSum (fun r => r.room = "R1")
          [⟨"R1", "A", "h1", some 100, Status.ok, 2, []⟩,
           ⟨"R1", "B", "h2", none, Status.timeout, 2, []⟩])⟩ : SumRow)
      ∈ build_room_rack_summary
          [⟨"R1", "A", "h1", some 100, Status.ok, 2, []⟩,
           ⟨"R1", "B", "h2", none, Status.timeout, 2, []⟩])
    ∧ okStatusWattsSum (fun r => r.room = "R1" && r.rack = "B")
        [⟨"R1", "A", "h1", some 100, Status.ok, 2, []⟩,
         ⟨"R1", "B", "h2", none, Status.timeout, 2, []⟩] = 0 := by
  have hw : ∀ r ∈ [(⟨"R1", "A", "h1", some 100, Status.ok, 2, []⟩ : DetailRow),
      ⟨"R1", "B", "h2", none, Status.timeout, 2, []⟩],
      (r.watts.isSome ↔ r.status = Status.ok) := by
    intro r hr
    rcases List.mem_cons.mp hr with h | h
    · subst h; simp
    · rcases List.mem_cons.mp h with h | h
      · subst h; simp
      · exact absurd h (by simp)
  have hq : ∀ r ∈ [(⟨"R1", "A", "h1", some 100, Status.ok, 2, []⟩ : DetailRow),
      ⟨"R1", "B", "h2", none, Status.timeout, 2, []⟩],
      ∀ w, r.watts = some w → ∃ z : ℤ, w = z / 10 := by
    intro r hr w hwz
    rcases List.mem_cons.mp hr with h | h
    · subst h
      have : (100 : ℚ) = w := by
        simpa using hwz
      exact ⟨1000, by rw [← this]; norm_num⟩
    · rcases List.mem_cons.mp h with h | h
      · subst h
        exact absurd hwz (by simp)
      · exact absurd h (by simp)
  have h := c6_summary_totals
    [⟨"R1", "A", "h1", some 100, Status.ok, 2, []⟩,
     ⟨"R1", "B", "h2", none, Status.timeout, 2, []⟩] hw hq
  refine ⟨?_, ?_, ?_⟩
  · exact h.1 "R1" "A"
      ⟨⟨"R1", "A", "h1", some 100, Status.ok, 2, []⟩,
       List.mem_cons_self _ _, rfl, rfl⟩
  · exact h.2.1 "R1"
      ⟨⟨"R1", "A", "h1", some 100, Status.ok, 2, []⟩,
       List.mem_cons_self _ _, rfl⟩
  · apply h.2.2 "R1" "B"
    intro r hr h1 h2
    rcases List.mem_cons.mp hr with hh | hh
    · subst hh
      exact absurd h2 (by simp)
    · rcases List.mem_cons.mp hh with hh | hh
      · subst hh
        simp
      · exact absurd hh (by simp)

/-! ## Concrete evaluations of the embedded scorer and parser -/

theorem name_score_table :
    name_score "Total Power" = 100 ∧ name_score "TOTAL_POWER" = 100 ∧
    name_score "totalpower" = 100 ∧ name_score "Total  Power" = 100 ∧
    name_score "System Power" = 100 ∧ name_score "Node  Power" = 100 ∧
    name_score " Power " = 90 ∧ name_score "POWER" = 90 ∧
    name_score "Power2" = 20 ∧ name_score "CPU Power" = 20 ∧
    name_score "PSU1_PIN" = 20 ∧ name_score "Fan1" = 20 ∧
    name_score "Sys Power" = 40 ∧ name_score "Power Meter" = 40 ∧
    name_score "Inlet Temp" = 0 ∧ name_score "" = 0 ∧ name_score "   " = 0 := by
  decide

theorem lineCandidate_samples :
    lineCandidate ("Pwr Consumption  | 0Eh | ok  |  7.1 | 154".toList)
      = some ("Pwr Consumption", decToRat "154".toList, "154")
    ∧ lineCandidate ("no pipes here".toList) = none
    ∧ extractWatts ("12.5 W".toList)
        = some (decToRat "12.5".toList, "12.5 W".toList)
    ∧ extractWatts ("Wattsx 33".toList) = none
    ∧ extractWatts ("abc".toList) = none := by
  exact ⟨rfl, rfl, rfl, rfl, rfl⟩

end IpmiPower
